import Mathlib

/-!
Shallow embedding of the reinforcement-learning traffic controller
(`rl_traffic_controller`): the replay memory, the epsilon-greedy action
selector, the optimizer step and the soft target update from `agent.py`,
and the SUMO environment adapter state machine from `controllers.py`.
Machine reals that the Python code manipulates as floats are modelled as
exact rationals (or reals where `exp` is involved); the PyTorch networks
appear as opaque function parameters, since the claims treat them as
black-box function approximators.
-/

namespace RLTraffic

/-! ## Replay memory (`agent.py`, class `ReplayMemory`)

`ReplayMemory.memory` is a `collections.deque` with `maxlen = capacity`.
`push` appends on the right; when the deque is full the leftmost (oldest)
element is discarded.  We model the deque as a `List` whose head is the
oldest element. -/

/-- The suffix of `l` of length `min l.length c` (the `c` most recent
elements, for a list whose head is oldest). -/
def takeLast (c : Nat) (l : List α) : List α :=
  l.drop (l.length - c)

/-- Model of `ReplayMemory.push`: append on the right; a `deque` with
`maxlen = capacity` evicts from the left when the new length would
exceed the capacity. -/
def ReplayMemory.push (capacity : Nat) (memory : List α) (x : α) : List α :=
  let m := memory ++ [x]
  m.drop (m.length - capacity)

/-- A whole sequence of `push` calls, oldest first. -/
def ReplayMemory.pushAll (capacity : Nat) (memory : List α) (xs : List α) : List α :=
  xs.foldl (ReplayMemory.push capacity) memory

theorem ReplayMemory.push_eq_takeLast (capacity : Nat) (memory : List α) (x : α) :
    ReplayMemory.push capacity memory x = takeLast capacity (memory ++ [x]) := rfl

theorem takeLast_eq_reverse_take (c : Nat) (m : List α) :
    takeLast c m = (m.reverse.take c).reverse :=
  List.rtake_eq_reverse_take_reverse m c

theorem takeLast_takeLast_append (c : Nat) (l ts : List α) :
    takeLast c (takeLast c l ++ ts) = takeLast c (l ++ ts) := by
  rw [takeLast_eq_reverse_take c (takeLast c l ++ ts),
    takeLast_eq_reverse_take c (l ++ ts), takeLast_eq_reverse_take c l,
    List.reverse_append, List.reverse_append, List.reverse_reverse]
  congr 1
  rw [List.take_append_eq_append_take, List.take_append_eq_append_take,
    List.take_take]
  congr 2
  simp only [List.length_reverse]
  omega

theorem ReplayMemory.pushAll_eq_takeLast (capacity : Nat) :
    ∀ (xs memory : List α), memory.length ≤ capacity →
      ReplayMemory.pushAll capacity memory xs = takeLast capacity (memory ++ xs) := by
  intro xs
  induction xs with
  | nil =>
    intro memory h
    simp [ReplayMemory.pushAll, takeLast, Nat.sub_eq_zero_of_le h]
  | cons x xs ih =>
    intro memory h
    have hstep : ReplayMemory.pushAll capacity memory (x :: xs) =
        ReplayMemory.pushAll capacity (ReplayMemory.push capacity memory x) xs := rfl
    have hlen : (ReplayMemory.push capacity memory x).length ≤ capacity := by
      simp only [ReplayMemory.push, List.length_drop]
      omega
    rw [hstep, ih _ hlen, ReplayMemory.push_eq_takeLast,
      takeLast_takeLast_append, List.append_assoc, List.singleton_append]

/-- Claim C3: pushing more than `K` transitions into a `ReplayMemory` of
capacity `K` leaves exactly the `K` most recently pushed elements, in
insertion order (FIFO eviction of the oldest), with `len(memory) = K`;
and `len(memory) ≤ K` holds after every sequence of pushes. -/
theorem replay_memory_fifo (K : Nat) (ts : List α) (h : K < ts.length) :
    (ReplayMemory.pushAll K [] ts).length = K ∧
    ReplayMemory.pushAll K [] ts = ts.drop (ts.length - K) ∧
    ∀ us : List α, (ReplayMemory.pushAll K [] us).length ≤ K := by
  have hgen : ∀ us : List α, ReplayMemory.pushAll K [] us = takeLast K us := by
    intro us
    have := ReplayMemory.pushAll_eq_takeLast K us [] (by simp)
    simpa using this
  refine ⟨?_, ?_, ?_⟩
  · rw [hgen, takeLast, List.length_drop]; omega
  · rw [hgen]; rfl
  · intro us
    rw [hgen, takeLast, List.length_drop]
    omega

/-- Witness for C3 at `K = 2`, pushes `[1, 2, 3, 4]`. -/
theorem replay_memory_fifo_witness :
    2 < ([1, 2, 3, 4] : List Nat).length ∧
    (ReplayMemory.pushAll 2 [] [1, 2, 3, 4]).length = 2 ∧
    ReplayMemory.pushAll 2 [] [1, 2, 3, 4] = [3, 4] := by
  have h : 2 < ([1, 2, 3, 4] : List Nat).length := by decide
  have := replay_memory_fifo 2 [1, 2, 3, 4] h
  exact ⟨h, this.1, this.2.1.trans (by decide)⟩

/-! ## Soft target update (`agent.py`, `Agent.main`, lines 273-280)

After every environment step the training loop writes, for every key of
the state dict, `target[key] = policy[key] * TAU + target[key] * (1 - TAU)`.
The two state dicts share their key set (identical architectures), so we
model them as equal-length lists of parameter values paired positionally. -/

/-- The value of `Agent.TAU` in the source. -/
def TAU : ℚ := 5 / 1000

/-- The soft update loop body applied to every parameter pair. -/
def softUpdate (tau : ℚ) (policyParams targetParams : List ℚ) : List ℚ :=
  List.zipWith (fun p t => p * tau + t * (1 - tau)) policyParams targetParams

theorem softUpdate_tau_one : ∀ (p t : List ℚ), p.length = t.length →
    softUpdate 1 p t = p := by
  intro p
  induction p with
  | nil => intro t _; rfl
  | cons a p ih =>
    intro t h
    cases t with
    | nil => simp at h
    | cons b t =>
      simp only [softUpdate, List.zipWith_cons_cons]
      rw [show a * 1 + b * (1 - 1) = a by ring]
      exact congrArg (a :: ·) (ih t (by simpa using h))

theorem softUpdate_tau_zero : ∀ (p t : List ℚ), p.length = t.length →
    softUpdate 0 p t = t := by
  intro p
  induction p with
  | nil =>
    intro t h
    cases t with
    | nil => rfl
    | cons b t => simp at h
  | cons a p ih =>
    intro t h
    cases t with
    | nil => simp at h
    | cons b t =>
      simp only [softUpdate, List.zipWith_cons_cons]
      rw [show a * 0 + b * (1 - 0) = b by ring]
      exact congrArg (b :: ·) (ih t (by simpa using h))

/-- Claim C2: the target synchronizer performs
`target_param ← TAU * policy_param + (1 - TAU) * target_param` on every
parameter; with `TAU = 1` one application makes the target parameters equal
to the policy parameters, and with `TAU = 0` it leaves them unchanged. -/
theorem target_synchronizer_soft_update (tau : ℚ) (p t : List ℚ)
    (h : p.length = t.length) :
    (∀ i : Nat, i < p.length →
      (softUpdate tau p t).getD i 0 = tau * p.getD i 0 + (1 - tau) * t.getD i 0) ∧
    softUpdate 1 p t = p ∧
    softUpdate 0 p t = t := by
  refine ⟨?_, softUpdate_tau_one p t h, softUpdate_tau_zero p t h⟩
  intro i hi
  have hzlen : (softUpdate tau p t).length = p.length := by
    simp [softUpdate, h]
  rw [List.getD_eq_getElem _ _ (by omega : i < (softUpdate tau p t).length),
    List.getD_eq_getElem _ _ hi, List.getD_eq_getElem _ _ (by omega : i < t.length)]
  simp only [softUpdate, List.getElem_zipWith]
  ring

/-- Witness for C2 at `tau = 1/2`, `p = [1, 3]`, `t = [5, 7]`. -/
theorem target_synchronizer_soft_update_witness :
    ([1, 3] : List ℚ).length = ([5, 7] : List ℚ).length ∧
    ((∀ i : Nat, i < ([1, 3] : List ℚ).length →
      (softUpdate (1/2) [1, 3] [5, 7]).getD i 0 =
        (1/2) * ([1, 3] : List ℚ).getD i 0 + (1 - 1/2) * ([5, 7] : List ℚ).getD i 0) ∧
    softUpdate 1 [1, 3] [5, 7] = [1, 3] ∧
    softUpdate 0 [1, 3] [5, 7] = [5, 7]) :=
  ⟨by decide, target_synchronizer_soft_update (1/2) [1, 3] [5, 7] (by decide)⟩

/-! ## SUMO environment adapter (`controllers.py`, class `SUMOController`) -/

/-- Python list indexing `l[i]`: a negative index counts from the end of
the list (`l[-1]` is the last element); an index outside `[-len, len)`
raises `IndexError`, modelled as `none`. -/
def pyIndex (l : List α) (i : Int) : Option α :=
  let j : Int := if i < 0 then i + l.length else i
  if h : 0 ≤ j ∧ j < (l.length : Int) then
    some (l.get ⟨j.toNat, by omega⟩)
  else
    none

/-- A traci command issued by the controller, recorded in an event trace.
`setRYGState s` models `traci.trafficlight.setRedYellowGreenState(tl, s)`;
`advance n` models a call `self.step(n)` advancing simulated time by `n`
seconds (one dwell when `n = 3`). -/
inductive TraciEvent where
  | setRYGState (s : String)
  | advance (seconds : Nat)
deriving DecidableEq, Repr

/-- The mutable state of a `SUMOController` relevant to phases, detectors
and throughput, plus the trace of traci commands issued so far.
`detector_counts` is the `defaultdict(int)` kept as an insertion-ordered
association list. -/
structure SUMOState where
  prev_phase : Int
  detector_counts : List (String × Int)
  throughput : Int
  events : List TraciEvent
deriving DecidableEq, Repr

/-- The state established by `SUMOController.__init__`: `prev_phase = -1`
(sentinel), empty detector accumulator, zero throughput. -/
def initSUMOState : SUMOState :=
  { prev_phase := -1, detector_counts := [], throughput := 0, events := [] }

/-- Model of `SUMOController.set_traffic_phase`.  The phase string lists come from
`consts.SIMULATION_PHASES` and `consts.SIMULATION_AMBER_PHASES` (module
`consts` lies outside the modelled sources), so they are parameters.  When
the requested phase differs from `prev_phase`, the controller sets the
amber string `amber_phases[prev_phase]`, dwells via `self.step(3)`, sets
the new green string `phases[phase_index]` and records the new phase;
otherwise it only dwells.  The trailing debug log formats
`phases[phase_index]` in both branches, so an out-of-range request raises
(`none`) in either branch. -/
def set_traffic_phase (phases amber_phases : List String) (st : SUMOState)
    (phase_index : Nat) : Option SUMOState :=
  if st.prev_phase ≠ (phase_index : Int) then
    match pyIndex amber_phases st.prev_phase with
    | none => none
    | some amber =>
      match pyIndex phases (phase_index : Int) with
      | none => none
      | some green =>
        some { st with
          prev_phase := (phase_index : Int),
          events := st.events ++
            [TraciEvent.setRYGState amber, TraciEvent.advance 3,
             TraciEvent.setRYGState green] }
  else
    match pyIndex phases (phase_index : Int) with
    | none => none
    | some _ =>
      some { st with events := st.events ++ [TraciEvent.advance 3] }

theorem set_traffic_phase_same (phases amber_phases : List String)
    (st : SUMOState) (i : Nat) (g : String)
    (h : st.prev_phase = (i : Int))
    (hg : pyIndex phases (i : Int) = some g) :
    set_traffic_phase phases amber_phases st i =
      some { st with events := st.events ++ [TraciEvent.advance 3] } := by
  unfold set_traffic_phase
  rw [if_neg (not_not_intro h), hg]

theorem set_traffic_phase_changed (phases amber_phases : List String)
    (st : SUMOState) (i : Nat) (g a : String)
    (h : st.prev_phase ≠ (i : Int))
    (ha : pyIndex amber_phases st.prev_phase = some a)
    (hg : pyIndex phases (i : Int) = some g) :
    set_traffic_phase phases amber_phases st i =
      some { st with
        prev_phase := (i : Int),
        events := st.events ++
          [TraciEvent.setRYGState a, TraciEvent.advance 3,
           TraciEvent.setRYGState g] } := by
  unfold set_traffic_phase
  rw [if_pos h, ha, hg]

/-- Claim C7: requesting the phase equal to `prev_phase` issues no amber
command and advances time by exactly one dwell (`step(3)` once); requesting
a different phase issues exactly one amber command and one dwell before the
new green string is committed, so two differing green strings are never
adjacent in the issued command trace. -/
theorem phase_debounce (phases amber_phases : List String)
    (st : SUMOState) (i : Nat) (g a : String)
    (hg : pyIndex phases (i : Int) = some g)
    (ha : pyIndex amber_phases st.prev_phase = some a) :
    (st.prev_phase = (i : Int) →
      set_traffic_phase phases amber_phases st i =
        some { st with events := st.events ++ [TraciEvent.advance 3] }) ∧
    (st.prev_phase ≠ (i : Int) →
      set_traffic_phase phases amber_phases st i =
        some { st with
          prev_phase := (i : Int),
          events := st.events ++
            [TraciEvent.setRYGState a, TraciEvent.advance 3,
             TraciEvent.setRYGState g] }) :=
  ⟨fun h => set_traffic_phase_same phases amber_phases st i g h hg,
   fun h => set_traffic_phase_changed phases amber_phases st i g a h ha hg⟩

/-- Witness for C7 with two phases, previous phase `0`, request `1`. -/
theorem phase_debounce_witness :
    pyIndex ["GrGr", "rGrG"] ((1 : Nat) : Int) = some "rGrG" ∧
    pyIndex ["yryr", "ryry"] (SUMOState.mk 0 [] 0 []).prev_phase = some "yryr" ∧
    (((SUMOState.mk 0 [] 0 []).prev_phase = ((1 : Nat) : Int) →
      set_traffic_phase ["GrGr", "rGrG"] ["yryr", "ryry"] (SUMOState.mk 0 [] 0 []) 1 =
        some { SUMOState.mk 0 [] 0 [] with
          events := (SUMOState.mk 0 [] 0 []).events ++ [TraciEvent.advance 3] }) ∧
    ((SUMOState.mk 0 [] 0 []).prev_phase ≠ ((1 : Nat) : Int) →
      set_traffic_phase ["GrGr", "rGrG"] ["yryr", "ryry"] (SUMOState.mk 0 [] 0 []) 1 =
        some { SUMOState.mk 0 [] 0 [] with
          prev_phase := ((1 : Nat) : Int),
          events := (SUMOState.mk 0 [] 0 []).events ++
            [TraciEvent.setRYGState "yryr", TraciEvent.advance 3,
             TraciEvent.setRYGState "rGrG"] })) :=
  ⟨by decide, by decide,
   phase_debounce ["GrGr", "rGrG"] ["yryr", "ryry"] (SUMOState.mk 0 [] 0 []) 1
     "rGrG" "yryr" (by decide) (by decide)⟩

theorem pyIndex_neg_one (l : List α) (x : α) (h : l.getLast? = some x) :
    pyIndex l (-1) = some x := by
  have hne : l ≠ [] := by
    intro he
    subst he
    simp at h
  have hlen : 1 ≤ l.length := by
    cases l with
    | nil => exact absurd rfl hne
    | cons a t => simp
  unfold pyIndex
  have hcond : (0 : Int) ≤ -1 + (l.length : Int) ∧
      -1 + (l.length : Int) < (l.length : Int) := by omega
  simp only [show ((-1 : Int) < 0) = True by simp, if_true]
  rw [dif_pos hcond]
  have hidx : ((-1 : Int) + (l.length : Int)).toNat = l.length - 1 := by omega
  rw [List.getLast?_eq_getElem?, List.getElem?_eq_getElem (by omega)] at h
  simp only [List.get_eq_getElem, hidx]
  exact h

/-- Claim C9: on the first `set_traffic_phase` call after construction the
sentinel `prev_phase = -1` is not special-cased: the amber string applied
before the new green phase is `amber_phases[-1]`, the last element of the
amber list, by Python negative indexing. -/
theorem sentinel_amber_is_last (phases amber_phases : List String)
    (st : SUMOState) (i : Nat) (g a : String)
    (hprev : st.prev_phase = -1)
    (ha : amber_phases.getLast? = some a)
    (hg : pyIndex phases (i : Int) = some g) :
    pyIndex amber_phases st.prev_phase = some a ∧
    set_traffic_phase phases amber_phases st i =
      some { st with
        prev_phase := (i : Int),
        events := st.events ++
          [TraciEvent.setRYGState a, TraciEvent.advance 3,
           TraciEvent.setRYGState g] } := by
  have hidx : pyIndex amber_phases st.prev_phase = some a := by
    rw [hprev]
    exact pyIndex_neg_one amber_phases a ha
  refine ⟨hidx, ?_⟩
  have hne : st.prev_phase ≠ (i : Int) := by
    rw [hprev]
    omega
  exact set_traffic_phase_changed phases amber_phases st i g a hne hidx hg

/-- Witness for C9: fresh controller, request phase `0`. -/
theorem sentinel_amber_is_last_witness :
    initSUMOState.prev_phase = -1 ∧
    (["yryr", "ryry"] : List String).getLast? = some "ryry" ∧
    pyIndex ["GrGr", "rGrG"] ((0 : Nat) : Int) = some "GrGr" ∧
    (pyIndex ["yryr", "ryry"] initSUMOState.prev_phase = some "ryry" ∧
    set_traffic_phase ["GrGr", "rGrG"] ["yryr", "ryry"] initSUMOState 0 =
      some { initSUMOState with
        prev_phase := ((0 : Nat) : Int),
        events := initSUMOState.events ++
          [TraciEvent.setRYGState "ryry", TraciEvent.advance 3,
           TraciEvent.setRYGState "GrGr"] }) :=
  ⟨by decide, by decide, by decide,
   sentinel_amber_is_last ["GrGr", "rGrG"] ["yryr", "ryry"] initSUMOState 0
     "GrGr" "ryry" (by decide) (by decide) (by decide)⟩

/-- Python `d[k] += v` on a `defaultdict(int)`: a missing key is created with
default `0` before the addition; existing keys keep insertion order. -/
def dictAdd (d : List (String × Int)) (k : String) (v : Int) :
    List (String × Int) :=
  match d with
  | [] => [(k, v)]
  | (k2, v2) :: rest =>
    if k2 = k then (k2, v2 + v) :: rest else (k2, v2) :: dictAdd rest k v

/-- Model of `SUMOController.update_detectors`, one pass over the configured
detector ids (built in `__init__` as `edge + "_" + lane + "_en"` and
`..._ex`); `reading d` models
`traci.inductionloop.getIntervalVehicleNumber(d)` for this pass.  An id
ending in `"n"` (entry detector) adds its count to the edge accumulator
`detector_counts[d[:4]]`; any other id (exit detector) subtracts from the
same accumulator and adds its count to the throughput accumulator. -/
def update_detectors (detectors : List String) (reading : String → Int)
    (st : SUMOState) : SUMOState :=
  detectors.foldl (fun s det =>
    let num := reading det
    if det.endsWith "n" then
      { s with detector_counts := dictAdd s.detector_counts (det.take 4) num }
    else
      { s with
        detector_counts := dictAdd s.detector_counts (det.take 4) (-num),
        throughput := s.throughput + num }) st

/-- Model of `SUMOController.get_throughput`: returns the throughput accumulator
and resets it to zero (drain-on-read). -/
def get_throughput (st : SUMOState) : Int × SUMOState :=
  (st.throughput, { st with throughput := 0 })

/-- The total count read from the exit detectors (ids not ending in
`"n"`) during one `update_detectors` pass. -/
def exitSum (detectors : List String) (reading : String → Int) : Int :=
  ((detectors.filter (fun d => !(d.endsWith "n"))).map reading).sum

theorem update_detectors_throughput (detectors : List String)
    (reading : String → Int) :
    ∀ st : SUMOState, (update_detectors detectors reading st).throughput =
      st.throughput + exitSum detectors reading := by
  induction detectors with
  | nil =>
    intro st
    simp [update_detectors, exitSum]
  | cons det rest ih =>
    intro st
    by_cases hdet : det.endsWith "n"
    · have h1 : update_detectors (det :: rest) reading st =
          update_detectors rest reading
            { st with detector_counts := dictAdd st.detector_counts (det.take 4) (reading det) } := by
        simp [update_detectors, hdet]
      have h2 : exitSum (det :: rest) reading = exitSum rest reading := by
        simp [exitSum, hdet]
      rw [h1, ih, h2]
    · have h1 : update_detectors (det :: rest) reading st =
          update_detectors rest reading
            { st with
              detector_counts := dictAdd st.detector_counts (det.take 4) (-(reading det)),
              throughput := st.throughput + reading det } := by
        simp [update_detectors, hdet]
      have h2 : exitSum (det :: rest) reading = reading det + exitSum rest reading := by
        simp [exitSum, hdet]
      rw [h1, ih, h2]
      ring

/-- Claim C8: `get_throughput` is drain-on-read.  It returns the value of
the throughput accumulator (which `update_detectors` grows by exactly the
sum of the exit-detector counts on each pass) and resets the accumulator
to zero, so a second immediately following call with no intervening
detector update returns 0. -/
theorem get_throughput_drain_on_read (st : SUMOState)
    (detectors : List String) (reading : String → Int) :
    (get_throughput st).1 = st.throughput ∧
    (get_throughput st).2.throughput = 0 ∧
    (get_throughput (get_throughput st).2).1 = 0 ∧
    (update_detectors detectors reading st).throughput =
      st.throughput + exitSum detectors reading :=
  ⟨rfl, rfl, rfl, update_detectors_throughput detectors reading st⟩

/-- Python builtin `max` over an iterable: raises `ValueError` on an empty
iterable (modelled as `none`), else folds binary `max` over the values. -/
def pyMax : List Int → Option Int
  | [] => none
  | v :: vs => some (vs.foldl max v)

/-- Model of `SUMOController.get_max_length`:
`max(self.detector_counts.values())`. -/
def get_max_length (st : SUMOState) : Option Int :=
  pyMax (st.detector_counts.map Prod.snd)

theorem le_foldl_max (l : List Int) : ∀ (v : Int), v ≤ l.foldl max v := by
  induction l with
  | nil => intro v; exact le_refl v
  | cons a l ih =>
    intro v
    exact le_trans (le_max_left v a) (ih (max v a))

theorem foldl_max_mem (l : List Int) :
    ∀ (v : Int), l.foldl max v = v ∨ l.foldl max v ∈ l := by
  induction l with
  | nil => intro v; exact Or.inl rfl
  | cons a l ih =>
    intro v
    rcases ih (max v a) with h | h
    · rcases max_choice v a with hm | hm
      · exact Or.inl (by rw [List.foldl_cons, h, hm])
      · refine Or.inr ?_
        rw [List.foldl_cons, h, hm]
        exact List.mem_cons_self a l
    · exact Or.inr (List.mem_cons_of_mem a h)

theorem mem_le_foldl_max (l : List Int) :
    ∀ (v x : Int), x ∈ l → x ≤ l.foldl max v := by
  induction l with
  | nil => intro v x hx; simp at hx
  | cons a l ih =>
    intro v x hx
    rcases List.mem_cons.mp hx with h | h
    · subst h
      exact le_trans (le_max_right v x) (le_foldl_max l (max v x))
    · exact ih (max v a) x h

/-- Claim C10: `get_max_length` on a controller whose detector-count
accumulator is empty — as after `__init__`, before any `update_detectors`
call — raises (`max` of an empty collection, modelled as `none`); on a
nonempty accumulator it returns the maximum accumulator value. -/
theorem get_max_length_empty_raises (st : SUMOState)
    (h : st.detector_counts ≠ []) :
    get_max_length initSUMOState = none ∧
    ∃ m, get_max_length st = some m ∧
      m ∈ st.detector_counts.map Prod.snd ∧
      ∀ v ∈ st.detector_counts.map Prod.snd, v ≤ m := by
  refine ⟨rfl, ?_⟩
  cases hc : st.detector_counts.map Prod.snd with
  | nil =>
    exact absurd (List.map_eq_nil_iff.mp hc) h
  | cons v vs =>
    refine ⟨vs.foldl max v, ?_, ?_, ?_⟩
    · rw [get_max_length, hc]
      rfl
    · rcases foldl_max_mem vs v with he | he
      · rw [he]; exact List.mem_cons_self v vs
      · exact List.mem_cons_of_mem v he
    · intro x hx
      rcases List.mem_cons.mp hx with hh | hh
      · subst hh
        exact le_foldl_max vs x
      · exact mem_le_foldl_max vs v x hh

/-- Witness for C10 on a controller with two populated accumulators. -/
theorem get_max_length_empty_raises_witness :
    (SUMOState.mk (-1) [("E2TL", 3), ("N2TL", 7)] 0 []).detector_counts ≠ [] ∧
    (get_max_length initSUMOState = none ∧
    ∃ m, get_max_length (SUMOState.mk (-1) [("E2TL", 3), ("N2TL", 7)] 0 []) = some m ∧
      m ∈ (SUMOState.mk (-1) [("E2TL", 3), ("N2TL", 7)] 0 []).detector_counts.map Prod.snd ∧
      ∀ v ∈ (SUMOState.mk (-1) [("E2TL", 3), ("N2TL", 7)] 0 []).detector_counts.map Prod.snd,
        v ≤ m) :=
  ⟨by decide,
   get_max_length_empty_raises (SUMOState.mk (-1) [("E2TL", 3), ("N2TL", 7)] 0 [])
     (by decide)⟩

/-! ## Exploration rate (`agent.py`, `Agent.select_action`, lines 148-151)

The epsilon threshold is pure real arithmetic on the constants of class
`Agent`, modelled over `ℝ` (the Python floats denote these reals). -/

/-- Constant `Agent.EPS_START = 0.9`. -/
noncomputable def EPS_START : ℝ := 9 / 10

/-- Constant `Agent.EPS_END = 0.05`. -/
noncomputable def EPS_END : ℝ := 5 / 100

/-- Constant `Agent.EPS_DECAY = 1000`. -/
noncomputable def EPS_DECAY : ℝ := 1000

/-- The epsilon threshold computed by `Agent.select_action`:
`EPS_END + (EPS_START - EPS_END) * math.exp(-1. * steps_done / EPS_DECAY)`. -/
noncomputable def eps_threshold (steps_done : ℕ) : ℝ :=
  EPS_END + (EPS_START - EPS_END) *
    Real.exp (-1 * (steps_done : ℝ) / EPS_DECAY)

/-- Claim C5: the exploration rate equals
`EPS_END + (EPS_START - EPS_END) * exp(-steps_done / EPS_DECAY)`; as a
function of `steps_done` it is strictly decreasing, equals `EPS_START` at
`steps_done = 0`, and tends to `EPS_END` as `steps_done` grows. -/
theorem action_selector_eps_decay :
    (∀ n : ℕ, eps_threshold n =
      EPS_END + (EPS_START - EPS_END) * Real.exp (-(n : ℝ) / EPS_DECAY)) ∧
    eps_threshold 0 = EPS_START ∧
    StrictAnti eps_threshold ∧
    Filter.Tendsto eps_threshold Filter.atTop (nhds EPS_END) := by
  have hpos : (0 : ℝ) < EPS_START - EPS_END := by
    norm_num [EPS_START, EPS_END]
  refine ⟨?_, ?_, ?_, ?_⟩
  · intro n
    unfold eps_threshold
    ring_nf
  · unfold eps_threshold
    norm_num [EPS_START, EPS_END, Real.exp_zero]
  · intro a b hab
    have hc : (a : ℝ) < (b : ℝ) := Nat.cast_lt.mpr hab
    unfold eps_threshold
    have hexp : Real.exp (-1 * (b : ℝ) / EPS_DECAY) <
        Real.exp (-1 * (a : ℝ) / EPS_DECAY) := by
      apply Real.exp_lt_exp.mpr
      unfold EPS_DECAY
      linarith
    have := mul_lt_mul_of_pos_left hexp hpos
    linarith
  · have hdiv : Filter.Tendsto (fun n : ℕ => (n : ℝ) / EPS_DECAY)
        Filter.atTop Filter.atTop :=
      Filter.Tendsto.atTop_div_const (by norm_num [EPS_DECAY])
        tendsto_natCast_atTop_atTop
    have hneg : Filter.Tendsto (fun n : ℕ => -1 * (n : ℝ) / EPS_DECAY)
        Filter.atTop Filter.atBot := by
      have heq : (fun n : ℕ => -1 * (n : ℝ) / EPS_DECAY) =
          (fun x : ℝ => -x) ∘ (fun n : ℕ => (n : ℝ) / EPS_DECAY) := by
        funext n
        simp [Function.comp]
        ring
      rw [heq]
      exact Filter.tendsto_neg_atTop_atBot.comp hdiv
    have hexp : Filter.Tendsto
        (fun n : ℕ => Real.exp (-1 * (n : ℝ) / EPS_DECAY))
        Filter.atTop (nhds 0) :=
      Real.tendsto_exp_atBot.comp hneg
    have hfull := Filter.Tendsto.const_add EPS_END
      (Filter.Tendsto.const_mul (EPS_START - EPS_END) hexp)
    have : EPS_END + (EPS_START - EPS_END) * 0 = EPS_END := by ring
    rw [this] at hfull
    exact hfull

/-! ## Replay memory sampling (`agent.py`, `ReplayMemory.sample`)

`random.sample(self.memory, batch_size)` raises `ValueError` when
`batch_size > len(memory)`; otherwise it draws `batch_size` elements from
pairwise distinct positions (selection without replacement): each round
picks a position below the current pool size and removes the chosen
element from the pool.  The random number generator is modelled by an
oracle giving the raw draw of each round, reduced modulo the current pool
size, so every oracle realises a valid run and the theorems quantify over
all of them. -/

def sampleGo (oracle : Nat → Nat) : Nat → Nat → List α → List α
  | _, 0, _ => []
  | _, _ + 1, [] => []
  | i, k + 1, x :: pool =>
    let j := oracle i % (x :: pool).length
    (x :: pool).get ⟨j, Nat.mod_lt _ (Nat.succ_pos _)⟩ ::
      sampleGo oracle (i + 1) k ((x :: pool).eraseIdx j)

/-- Model of `ReplayMemory.sample`: guard and selection of `random.sample`. -/
def ReplayMemory.sample (memory : List α) (batch_size : Nat)
    (oracle : Nat → Nat) : Except String (List α) :=
  if memory.length < batch_size then
    Except.error "Sample larger than population or is negative"
  else
    Except.ok (sampleGo oracle 0 batch_size memory)

theorem sampleGo_length (oracle : Nat → Nat) :
    ∀ (k i : Nat) (pool : List α), k ≤ pool.length →
      (sampleGo oracle i k pool).length = k := by
  intro k
  induction k with
  | zero => intro i pool _; rfl
  | succ k ih =>
    intro i pool hk
    cases pool with
    | nil => simp at hk
    | cons x pool =>
      have hj : oracle i % (pool.length + 1) < pool.length + 1 :=
        Nat.mod_lt _ (Nat.succ_pos _)
      have herase :
          ((x :: pool).eraseIdx (oracle i % (pool.length + 1))).length = pool.length := by
        rw [List.length_eraseIdx]
        simp only [List.length_cons]
        rw [if_pos hj]
        omega
      simp only [sampleGo, List.length_cons]
      rw [ih (i + 1) _ (by rw [herase]; simp only [List.length_cons] at hk; omega)]

theorem cons_get_eraseIdx_perm :
    ∀ (l : List α) (j : Nat) (h : j < l.length),
      List.Perm (l.get ⟨j, h⟩ :: l.eraseIdx j) l := by
  intro l
  induction l with
  | nil => intro j h; simp at h
  | cons a t ih =>
    intro j h
    cases j with
    | zero => exact List.Perm.refl _
    | succ j =>
      have hj : j < t.length := by
        simp only [List.length_cons] at h
        omega
      have hstep : (a :: t).get ⟨j + 1, h⟩ :: (a :: t).eraseIdx (j + 1)
          = t.get ⟨j, hj⟩ :: a :: t.eraseIdx j := rfl
      rw [hstep]
      exact List.Perm.trans (List.Perm.swap a (t.get ⟨j, hj⟩) (t.eraseIdx j))
        (List.Perm.cons a (ih j hj))

theorem sampleGo_multiset_le (oracle : Nat → Nat) :
    ∀ (k i : Nat) (pool : List α),
      (sampleGo oracle i k pool : Multiset α) ≤ (pool : Multiset α) := by
  intro k
  induction k with
  | zero =>
    intro i pool
    simp [sampleGo]
  | succ k ih =>
    intro i pool
    cases pool with
    | nil => simp [sampleGo]
    | cons x pool =>
      have hj : oracle i % (x :: pool).length < (x :: pool).length :=
        Nat.mod_lt _ (Nat.succ_pos _)
      have h1 : (sampleGo oracle i (k + 1) (x :: pool) : Multiset α) =
          (x :: pool).get ⟨oracle i % (x :: pool).length, hj⟩ ::ₘ
            (sampleGo oracle (i + 1) k
              ((x :: pool).eraseIdx (oracle i % (x :: pool).length)) : Multiset α) := by
        simp [sampleGo]
      rw [h1]
      have h2 := Multiset.cons_le_cons
        ((x :: pool).get ⟨oracle i % (x :: pool).length, hj⟩)
        (ih (i + 1) ((x :: pool).eraseIdx (oracle i % (x :: pool).length)))
      refine le_trans h2 (le_of_eq ?_)
      have h3 : ((x :: pool).get ⟨oracle i % (x :: pool).length, hj⟩ ::ₘ
          (((x :: pool).eraseIdx (oracle i % (x :: pool).length) : List α) : Multiset α)) =
          ((((x :: pool).get ⟨oracle i % (x :: pool).length, hj⟩ ::
            (x :: pool).eraseIdx (oracle i % (x :: pool).length)) : List α) : Multiset α) :=
        Multiset.cons_coe _ _
      rw [h3, Multiset.coe_eq_coe]
      exact cons_get_eraseIdx_perm (x :: pool) _ hj

/-- Claim C4: `sample(n)` with `n ≤ len(memory)` returns exactly `n`
entries taken without replacement from the current contents (as a
multiset, the result is contained in the memory, so the chosen positions
are pairwise distinct); `sample(n)` with `n > len(memory)` raises
`ValueError` instead of returning a short batch. -/
theorem replay_memory_sample_spec (memory : List α) (n : Nat)
    (oracle : Nat → Nat) :
    (n ≤ memory.length →
      ∃ r, ReplayMemory.sample memory n oracle = Except.ok r ∧
        r.length = n ∧ (r : Multiset α) ≤ (memory : Multiset α)) ∧
    (memory.length < n →
      ReplayMemory.sample memory n oracle =
        Except.error "Sample larger than population or is negative") := by
  constructor
  · intro h
    refine ⟨sampleGo oracle 0 n memory, ?_, ?_, ?_⟩
    · rw [ReplayMemory.sample, if_neg (by omega)]
    · exact sampleGo_length oracle n 0 memory h
    · exact sampleGo_multiset_le oracle n 0 memory
  · intro h
    rw [ReplayMemory.sample, if_pos h]

/-- Witness for C4: sampling 2 of 3 stored values succeeds. -/
theorem replay_memory_sample_spec_witness :
    2 ≤ ([10, 20, 30] : List Nat).length ∧
    ∃ r, ReplayMemory.sample ([10, 20, 30] : List Nat) 2 (fun _ => 0) = Except.ok r ∧
      r.length = 2 ∧ (r : Multiset Nat) ≤ (([10, 20, 30] : List Nat) : Multiset Nat) :=
  ⟨by decide,
   (replay_memory_sample_spec ([10, 20, 30] : List Nat) 2 (fun _ => 0)).1 (by decide)⟩

/-! ## Optimizer step (`agent.py`, `Agent.optimize_model`)

`Transition` is the namedtuple `(state, action, next_state, reward)`;
`next_state = None` encodes a terminal transition, and the action is one
of the `n_actions = 4` indices emitted by `select_action`.  The two
networks enter as opaque Q-functions of their parameters (`DQN.forward`
is a black-box function approximator to every claim), and the combined
effect of `loss.backward()`, the gradient clipping and `optimizer.step()`
on the policy parameters is an opaque update function of the computed
`state_action_values` and `expected_state_action_values`. -/

/-- Constant `Agent.n_actions = 4`. -/
abbrev n_actions : Nat := 4

/-- Constant `Agent.BATCH_SIZE = 32`. -/
def BATCH_SIZE : Nat := 32

/-- Constant `Agent.GAMMA = 0.99`. -/
def GAMMA : ℚ := 99 / 100

/-- The namedtuple `Transition(state, action, next_state, reward)`. -/
structure Transition (σ : Type) where
  state : σ
  action : Fin n_actions
  next_state : Option σ
  reward : ℚ
deriving DecidableEq, Repr

/-- Row maximum `t.max(1).values` on one row of Q-values: the maximum over the four
action entries of the row. -/
def rowMax (q : Fin n_actions → ℚ) : ℚ :=
  max (max (max (q 0) (q 1)) (q 2)) (q 3)

/-- Stacking `non_final_next_states`, i.e.
`torch.cat([s for s in batch.next_state if s is not None])` (which raises
when the comprehension is empty — see `optimize_model`). -/
def nonFinalNextStates (batch : List (Transition σ)) : List σ :=
  batch.filterMap (fun t => t.next_state)

/-- Tensor `next_state_values`: `torch.zeros(BATCH_SIZE)` whose entries at the
`non_final_mask` positions are overwritten, in order, with
`target_net(non_final_next_states).max(1).values`.  Positionally this is:
entry `i` equals `rowMax (targetNet s)` when `batch[i].next_state` is
`some s`, and `0` when `batch[i]` is terminal. -/
def nextStateValues (targetNet : σ → Fin n_actions → ℚ)
    (batch : List (Transition σ)) : List ℚ :=
  batch.map (fun t =>
    match t.next_state with
    | none => 0
    | some s => rowMax (targetNet s))

/-- Tensor `expected_state_action_values = next_state_values * GAMMA + reward_batch`. -/
def expectedStateActionValues (targetNet : σ → Fin n_actions → ℚ)
    (batch : List (Transition σ)) : List ℚ :=
  List.zipWith (fun v r => v * GAMMA + r)
    (nextStateValues targetNet batch) (batch.map Transition.reward)

/-- The agent state read and written by `Agent.optimize_model`. -/
structure AgentState (σ π : Type) where
  memory : List (Transition σ)
  policy_params : π
  target_params : π
deriving DecidableEq, Repr

/-- Model of `Agent.optimize_model`: return unchanged when fewer than `BATCH_SIZE`
transitions are stored; otherwise sample a batch, stack the non-final
next states (`torch.cat` raises on an empty list when the whole batch is
terminal), compute `Q(s, a)` under the policy network and the bootstrapped
targets under the target network, and apply one gradient update to the
policy parameters. -/
def optimize_model (policyNet : π → σ → Fin n_actions → ℚ)
    (targetNet : π → σ → Fin n_actions → ℚ)
    (gradStep : π → List ℚ → List ℚ → π)
    (oracle : Nat → Nat)
    (s : AgentState σ π) : Except String (AgentState σ π) :=
  if s.memory.length < BATCH_SIZE then
    Except.ok s
  else
    match ReplayMemory.sample s.memory BATCH_SIZE oracle with
    | Except.error e => Except.error e
    | Except.ok transitions =>
      if (nonFinalNextStates transitions).isEmpty then
        Except.error "torch.cat(): expected a non-empty list of tensors"
      else
        let state_action_values :=
          transitions.map (fun t => policyNet s.policy_params t.state t.action)
        Except.ok { s with
          policy_params := gradStep s.policy_params state_action_values
            (expectedStateActionValues (targetNet s.target_params) transitions) }

/-- Claim C6: invoking the optimizer step with fewer than `BATCH_SIZE`
stored transitions returns immediately without sampling and leaves the
whole agent state — policy parameters included — unchanged, for every
choice of networks, gradient update and random draw; it is a no-op, not
an error. -/
theorem optimize_model_noop_below_batch_size
    (policyNet targetNet : π → σ → Fin n_actions → ℚ)
    (gradStep : π → List ℚ → List ℚ → π) (oracle : Nat → Nat)
    (s : AgentState σ π) (h : s.memory.length < BATCH_SIZE) :
    optimize_model policyNet targetNet gradStep oracle s = Except.ok s := by
  rw [optimize_model, if_pos h]

/-- Witness for C6 on an empty memory. -/
theorem optimize_model_noop_below_batch_size_witness :
    (AgentState.mk ([] : List (Transition Nat)) (0 : Nat) 0).memory.length < BATCH_SIZE ∧
    optimize_model (fun _ _ _ => (0 : ℚ)) (fun _ _ _ => (0 : ℚ)) (fun p _ _ => p)
      (fun _ => 0) (AgentState.mk ([] : List (Transition Nat)) (0 : Nat) 0) =
      Except.ok (AgentState.mk ([] : List (Transition Nat)) (0 : Nat) 0) :=
  ⟨by decide,
   optimize_model_noop_below_batch_size _ _ _ _ _ (by decide)⟩

/-- The identity the spec states for the bootstrapped target: on a batch
whose transitions are all terminal, `expected_state_action_values` would
be exactly the rewards, with no `GAMMA` contribution.  `optimize_model`
never reaches this computation on such a batch (see
`optimize_model_all_terminal_raises`): the unconditional `torch.cat` on
line 205 of `agent.py` raises first, so the spec describes the evident
intent of the masked-zero construction rather than the executed
behaviour. -/
theorem expectedStateActionValues_all_terminal
    (targetNet : σ → Fin n_actions → ℚ) (batch : List (Transition σ))
    (hterm : ∀ t ∈ batch, t.next_state = none) :
    expectedStateActionValues targetNet batch = batch.map Transition.reward := by
  induction batch with
  | nil => rfl
  | cons t rest ih =>
    have ht : t.next_state = none := hterm t (List.mem_cons_self t rest)
    have hrest : ∀ u ∈ rest, u.next_state = none :=
      fun u hu => hterm u (List.mem_cons_of_mem t hu)
    simp only [expectedStateActionValues, nextStateValues, List.map_cons,
      List.zipWith_cons_cons, ht] at ih ⊢
    rw [ih]
    · congr 1
      ring
    · exact hrest

/-- Claim C1 (code bug in `Agent.optimize_model`): with every stored
transition terminal, every sampled batch is all-terminal, and the step
raises instead of using `reward` as the target: the unconditional
`non_final_next_states = torch.cat([...])` on an empty list fails before
any target value is computed, for every network, update function and
random draw. -/
theorem optimize_model_all_terminal_raises
    (policyNet targetNet : π → σ → Fin n_actions → ℚ)
    (gradStep : π → List ℚ → List ℚ → π) (oracle : Nat → Nat)
    (s : AgentState σ π)
    (hlen : BATCH_SIZE ≤ s.memory.length)
    (hterm : ∀ t ∈ s.memory, t.next_state = none) :
    optimize_model policyNet targetNet gradStep oracle s =
      Except.error "torch.cat(): expected a non-empty list of tensors" := by
  rw [optimize_model, if_neg (by omega)]
  have hsample : ReplayMemory.sample s.memory BATCH_SIZE oracle =
      Except.ok (sampleGo oracle 0 BATCH_SIZE s.memory) := by
    rw [ReplayMemory.sample, if_neg (by omega)]
  rw [hsample]
  have hsub : ∀ t ∈ sampleGo oracle 0 BATCH_SIZE s.memory, t ∈ s.memory := by
    intro t ht
    have hle := sampleGo_multiset_le oracle BATCH_SIZE 0 s.memory
    exact Multiset.mem_coe.mp (Multiset.mem_of_le hle (Multiset.mem_coe.mpr ht))
  have hnil : (nonFinalNextStates (sampleGo oracle 0 BATCH_SIZE s.memory)).isEmpty = true := by
    rw [List.isEmpty_iff, nonFinalNextStates, List.filterMap_eq_nil_iff]
    intro t ht
    exact hterm t (hsub t ht)
  dsimp only
  rw [if_pos hnil]

/-- Witness for C1: 32 stored terminal transitions make the optimizer
step raise concretely. -/
theorem optimize_model_all_terminal_raises_witness :
    BATCH_SIZE ≤ (List.replicate 32 (Transition.mk (0 : Nat) 0 none 1)).length ∧
    (∀ t ∈ List.replicate 32 (Transition.mk (0 : Nat) 0 none 1),
      t.next_state = none) ∧
    optimize_model (fun _ _ _ => (0 : ℚ)) (fun _ _ _ => (0 : ℚ)) (fun p _ _ => p)
      (fun _ => 0)
      (AgentState.mk (List.replicate 32 (Transition.mk (0 : Nat) 0 none 1)) (0 : Nat) 0) =
      Except.error "torch.cat(): expected a non-empty list of tensors" :=
  ⟨by decide, by decide,
   optimize_model_all_terminal_raises _ _ _ _ _ (by decide) (by decide)⟩

end RLTraffic
